import Mathlib

/-!
Verification of the markparsr item-reconciliation engine.

Strings are modelled as lists of characters (`Str`); Go's byte-level string
operations (`strings.TrimSpace`, `strings.ToLower`, `strings.Index`,
`strings.HasPrefix`, `strings.Contains`, `strings.EqualFold`) become the
corresponding list operations.  Error values are modelled as inductive types
carrying the format arguments of the `fmt.Errorf` call that produced them.
-/

namespace Markparsr

/-- A Go string, modelled as its list of characters. -/
abbrev Str := List Char

/-- Whitespace predicate used by `strings.TrimSpace`. -/
def wsp (c : Char) : Bool := c.isWhitespace

/-- `strings.TrimSpace`: drop leading and trailing whitespace. -/
def trimStr (s : Str) : Str := (((s.dropWhile wsp).reverse).dropWhile wsp).reverse

/-- `strings.ToLower` (ASCII case folding). -/
def lowerStr (s : Str) : Str := s.map Char.toLower

/-- `normalizedItem` from helpers.go: one raw item name in canonical form. -/
structure NormalizedItem where
  original : Str
  key : Str
  base : Str
  hasDot : Bool
deriving DecidableEq, Repr

/-- Association-list lookup (the Go `map` read `m[k]`). -/
def alookup {α : Type} : List (Str × α) → Str → Option α
  | [], _ => none
  | (k, v) :: rest, s => if k = s then some v else alookup rest s

/-- `itemIndex` from helpers.go.  The Go maps are modelled as association
lists in insertion order; the claims proved below are order-insensitive. -/
structure ItemIndex where
  entries : List (Str × NormalizedItem)
  byBase : List (Str × List NormalizedItem)
deriving DecidableEq, Repr

/-- `index.byBase[base] = append(index.byBase[base], entry)`. -/
def insertByBase (m : List (Str × List NormalizedItem)) (b : Str)
    (e : NormalizedItem) : List (Str × List NormalizedItem) :=
  match m with
  | [] => [(b, [e])]
  | (k, l) :: rest =>
    if k = b then (k, l ++ [e]) :: rest else (k, l) :: insertByBase rest b e

/-- Rebuilding `byBase` from a list of entries (the loop at the end of
`buildItemIndex`). -/
def groupByBase (es : List NormalizedItem) : List (Str × List NormalizedItem) :=
  es.foldl (fun m e => insertByBase m e.base e) []

/-- The loop state of `buildItemIndex`'s first pass. -/
structure BuildState where
  entries : List (Str × NormalizedItem)
  byBase : List (Str × List NormalizedItem)
  qualifiedBases : List Str

/-- One iteration of the first loop of `buildItemIndex` (helpers.go):
trim, skip empties, lowercase for the key, first occurrence of a key wins,
split on the first dot, record bases that occur qualified. -/
def buildStep (st : BuildState) (item : Str) : BuildState :=
  let trimmed := trimStr item
  if trimmed = [] then st
  else
    let key := lowerStr trimmed
    if (alookup st.entries key).isSome then st
    else
      let hasDot := trimmed.any (fun c => c == '.')
      let base := if hasDot then lowerStr (trimStr (trimmed.takeWhile (fun c => c != '.'))) else key
      let entry : NormalizedItem := ⟨trimmed, key, base, hasDot⟩
      { entries := st.entries ++ [(key, entry)]
        byBase := insertByBase st.byBase base entry
        qualifiedBases := if hasDot then base :: st.qualifiedBases else st.qualifiedBases }

/-- `buildItemIndex` from helpers.go: the first pass builds the entries,
the post-pass deletes every non-dotted entry whose base also occurs with a
dot, and `byBase` is rebuilt from the surviving entries. -/
def buildItemIndex (items : List Str) : ItemIndex :=
  let st := items.foldl buildStep ⟨[], [], []⟩
  let survivors := st.entries.filter
    (fun p => p.2.hasDot || !(decide (p.2.base ∈ st.qualifiedBases)))
  { entries := survivors, byBase := groupByBase (survivors.map (fun p => p.2)) }

/-- `itemIndex.items()`: all surviving entries. -/
def ItemIndex.items (idx : ItemIndex) : List NormalizedItem :=
  idx.entries.map (fun p => p.2)

/-- `itemIndex.hasMatch`: exact key hit, or any entry sharing the base. -/
def ItemIndex.hasMatch (idx : ItemIndex) (target : NormalizedItem) : Bool :=
  (alookup idx.entries target.key).isSome ||
    (match alookup idx.byBase target.base with
     | some entries => !entries.isEmpty
     | none => false)

/-- The two error shapes emitted by `compareTerraformAndMarkdown`
(helpers.go), with the `fmt.Errorf` arguments as fields. -/
inductive CompareError where
  | tfMissingInMd (itemType : Str) (original : Str)
  | mdMissingInTf (itemType : Str) (original : Str)
deriving DecidableEq, Repr

/-- `compareTerraformAndMarkdown` from helpers.go: build an index per side,
report every surviving entry of one side with no match on the other. -/
def compareTerraformAndMarkdown (tfItems mdItems : List Str) (itemType : Str) :
    List CompareError :=
  let tfIndex := buildItemIndex tfItems
  let mdIndex := buildItemIndex mdItems
  ((tfIndex.items.filter (fun e => !mdIndex.hasMatch e)).map
      (fun e => CompareError.tfMissingInMd itemType e.original)) ++
    ((mdIndex.items.filter (fun e => !tfIndex.hasMatch e)).map
      (fun e => CompareError.mdMissingInTf itemType e.original))

/-! ### Invariants of `buildItemIndex`'s first pass -/

/-- `buildStep` either leaves the state unchanged (empty or duplicate item)
or appends exactly one new entry keyed by its own `key`. -/
theorem buildStep_cases (st : BuildState) (item : Str) :
    buildStep st item = st ∨
    ∃ e : NormalizedItem,
      buildStep st item =
        ⟨st.entries ++ [(e.key, e)], insertByBase st.byBase e.base e,
          if e.hasDot then e.base :: st.qualifiedBases else st.qualifiedBases⟩ := by
  unfold buildStep
  dsimp only
  split
  · exact Or.inl rfl
  · split
    · exact Or.inl rfl
    · right
      refine ⟨⟨trimStr item, lowerStr (trimStr item), _, trimStr item |>.any (fun c => c == '.')⟩, rfl⟩

theorem buildStep_qb_mono (st : BuildState) (item : Str) {b : Str}
    (h : b ∈ st.qualifiedBases) : b ∈ (buildStep st item).qualifiedBases := by
  rcases buildStep_cases st item with heq | ⟨e, heq⟩ <;> rw [heq]
  · exact h
  · dsimp only
    split
    · exact List.mem_cons_of_mem _ h
    · exact h

/-- First-pass invariant: every stored entry with a dot has its base
recorded in `qualifiedBases`. -/
theorem buildStep_dotted (st : BuildState) (item : Str)
    (h : ∀ p ∈ st.entries, p.2.hasDot = true → p.2.base ∈ st.qualifiedBases) :
    ∀ p ∈ (buildStep st item).entries, p.2.hasDot = true →
      p.2.base ∈ (buildStep st item).qualifiedBases := by
  intro p hp hdot
  rcases buildStep_cases st item with heq | ⟨e, heq⟩ <;> rw [heq] at hp ⊢
  · exact h p hp hdot
  · dsimp only at hp ⊢
    rcases List.mem_append.1 hp with hold | hnew
    · split
      · exact List.mem_cons_of_mem _ (h p hold hdot)
      · exact h p hold hdot
    · have hpe : p = (e.key, e) := by simpa using hnew
      subst hpe
      simp only at hdot
      rw [hdot]
      exact List.mem_cons_self _ _

theorem foldl_dotted (items : List Str) :
    ∀ st : BuildState,
      (∀ p ∈ st.entries, p.2.hasDot = true → p.2.base ∈ st.qualifiedBases) →
      ∀ p ∈ (items.foldl buildStep st).entries, p.2.hasDot = true →
        p.2.base ∈ (items.foldl buildStep st).qualifiedBases := by
  induction items with
  | nil => intro st h; exact h
  | cons i rest ih =>
    intro st h
    exact ih (buildStep st i) (buildStep_dotted st i h)

theorem c1_general (items : List Str) :
    ∀ e1 ∈ (buildItemIndex items).items, ∀ e2 ∈ (buildItemIndex items).items,
      e1.base = e2.base → e1.hasDot = true → e2.hasDot = true := by
  intro e1 h1 e2 h2 hbase hdot
  unfold buildItemIndex ItemIndex.items at h1 h2
  dsimp only at h1 h2
  rcases List.mem_map.1 h1 with ⟨p1, hp1, he1⟩
  rcases List.mem_map.1 h2 with ⟨p2, hp2, he2⟩
  rw [List.mem_filter] at hp1 hp2
  have hqb : e1.base ∈ (items.foldl buildStep ⟨[], [], []⟩).qualifiedBases := by
    have := foldl_dotted items ⟨[], [], []⟩ (by intro p hp; simp at hp) p1 hp1.1
    rw [he1] at this
    exact this hdot
  by_contra hne
  have h2dot : e2.hasDot = false := by
    cases hh : e2.hasDot
    · rfl
    · exact absurd hh hne
  have := hp2.2
  rw [he2] at this
  rw [h2dot] at this
  simp only [Bool.false_or, Bool.not_eq_true', decide_eq_false_iff_not] at this
  rw [← hbase] at this
  exact this hqb

/-- C1: after `buildItemIndex`, no base that has at least one dotted entry
retains any non-dotted entry; `Build(["resource_type",
"resource_type.instance"]).Items()` is exactly the one qualified entry, and
`Build(["resource_type"]).Items()` is exactly the one bare entry. -/
theorem itemIndex_base_supersedes_bare :
    (∀ items : List Str, ∀ e1 ∈ (buildItemIndex items).items,
        ∀ e2 ∈ (buildItemIndex items).items,
        e1.base = e2.base → e1.hasDot = true → e2.hasDot = true) ∧
    (buildItemIndex ["resource_type".toList, "resource_type.instance".toList]).items =
      [⟨"resource_type.instance".toList, "resource_type.instance".toList,
        "resource_type".toList, true⟩] ∧
    (buildItemIndex ["resource_type".toList]).items =
      [⟨"resource_type".toList, "resource_type".toList, "resource_type".toList, false⟩] :=
  ⟨c1_general, by decide, by decide⟩

/-- Witness for C1: the general part applied to the concrete index built
from `["a.b", "a"]`, whose sole survivor is the dotted entry. -/
theorem itemIndex_base_supersedes_bare_witness :
    (⟨"a.b".toList, "a.b".toList, "a".toList, true⟩ : NormalizedItem).hasDot = true :=
  itemIndex_base_supersedes_bare.1 ["a.b".toList, "a".toList]
    ⟨"a.b".toList, "a.b".toList, "a".toList, true⟩ (by decide)
    ⟨"a.b".toList, "a.b".toList, "a".toList, true⟩ (by decide) rfl (by decide)

/-- C3: `Reconcile(A, B, t)` and `Reconcile(B, A, t)` produce the same
number of errors, and each "in Terraform but missing in markdown" error of
one run corresponds to the "in markdown but missing in Terraform" error of
the other run for the same item. -/
theorem reconcile_symmetry (A B : List Str) (t : Str) :
    (compareTerraformAndMarkdown A B t).length =
      (compareTerraformAndMarkdown B A t).length ∧
    (∀ o : Str, CompareError.tfMissingInMd t o ∈ compareTerraformAndMarkdown A B t ↔
      CompareError.mdMissingInTf t o ∈ compareTerraformAndMarkdown B A t) ∧
    (∀ o : Str, CompareError.mdMissingInTf t o ∈ compareTerraformAndMarkdown A B t ↔
      CompareError.tfMissingInMd t o ∈ compareTerraformAndMarkdown B A t) := by
  refine ⟨?_, ?_, ?_⟩
  · simp [compareTerraformAndMarkdown, Nat.add_comm]
  · intro o
    simp [compareTerraformAndMarkdown, List.mem_append, List.mem_map]
  · intro o
    simp [compareTerraformAndMarkdown, List.mem_append, List.mem_map]

/-! ### String-trim facts -/

theorem dropWhile_shape (p : Char → Bool) (l : Str) :
    l.dropWhile p = [] ∨
    ∃ a t, l.dropWhile p = a :: t ∧ p a = false := by
  induction l with
  | nil => exact Or.inl rfl
  | cons a l ih =>
    by_cases h : p a
    · simpa [List.dropWhile, h] using ih
    · right
      exact ⟨a, l, by simp [List.dropWhile, h], by simpa using h⟩

theorem dropWhile_idem (p : Char → Bool) (l : Str) :
    (l.dropWhile p).dropWhile p = l.dropWhile p := by
  rcases dropWhile_shape p l with h | ⟨a, t, h, hpa⟩ <;> rw [h]
  · rfl
  · simp [List.dropWhile, hpa]

theorem dropWhile_head_false (p : Char → Bool) (l : Str) {a : Char}
    (h : l.head? = some a) (hpa : p a = false) : l.dropWhile p = l := by
  cases l with
  | nil => rfl
  | cons b t =>
    have : b = a := by simpa using h
    subst this
    simp [List.dropWhile, hpa]

-- suffix/last facts
theorem dropWhile_getLast? (p : Char → Bool) (l : Str)
    (hne : l.dropWhile p ≠ []) : (l.dropWhile p).getLast? = l.getLast? := by
  conv_rhs => rw [← List.takeWhile_append_dropWhile (p := p) (l := l)]
  rw [List.getLast?_append_of_ne_nil _ hne]

theorem trimStr_idem (s : Str) : trimStr (trimStr s) = trimStr s := by
  unfold trimStr
  set u := s.dropWhile wsp with hu
  set v := u.reverse.dropWhile wsp with hv
  rcases dropWhile_shape wsp u.reverse with hnil | ⟨a, t, hcons, hpa⟩
  · rw [← hv] at hnil
    rw [hnil]
    simp
  · -- v = a :: t, so v.reverse is nonempty; its head is v.getLast
    rw [← hv] at hcons
    -- step 1: dropWhile wsp v.reverse = v.reverse
    have hvne : v ≠ [] := by rw [hcons]; simp
    have hlast : v.getLast? = u.head? := by
      have h1 : v.getLast? = u.reverse.getLast? := dropWhile_getLast? wsp u.reverse (by rw [← hv] at *; rw [hcons]; simp)
      rw [h1, List.getLast?_reverse]
    have huhead : ∀ b, u.head? = some b → wsp b = false := by
      intro b hb
      rcases dropWhile_shape wsp s with h0 | ⟨c, t0, h0, hc⟩
      · rw [← hu] at h0; rw [h0] at hb; simp at hb
      · rw [← hu] at h0
        rw [h0] at hb
        simp at hb
        rwa [hb] at hc
    have hhead : ∀ b, v.reverse.head? = some b → wsp b = false := by
      intro b hb
      rw [List.head?_reverse] at hb
      exact huhead b (by rw [← hlast]; exact hb)
    have hstep1 : v.reverse.dropWhile wsp = v.reverse := by
      rcases hh : v.reverse.head? with _ | b
      · -- v.reverse = []
        have : v.reverse = [] := by
          cases hvr : v.reverse with
          | nil => rfl
          | cons x xs => rw [hvr] at hh; simp at hh
        rw [this]
        rfl
      · exact dropWhile_head_false wsp v.reverse hh (hhead b hh)
    rw [hstep1]
    -- step 2: dropWhile wsp (v.reverse.reverse) = v since v = dropWhile of something
    rw [List.reverse_reverse]
    rw [← hv, hu] at *
    rw [hv]
    rw [dropWhile_idem]

/-! ### Entry/byBase invariants (C9) -/

/-- Richer shape of `buildStep`: the appended entry's fields. -/
theorem buildStep_cases2 (st : BuildState) (item : Str) :
    buildStep st item = st ∨
    ∃ e : NormalizedItem,
      buildStep st item =
        ⟨st.entries ++ [(e.key, e)], insertByBase st.byBase e.base e,
          if e.hasDot then e.base :: st.qualifiedBases else st.qualifiedBases⟩ ∧
      e.original = trimStr item ∧ e.original ≠ [] ∧ e.key = lowerStr e.original ∧
      alookup st.entries e.key = none := by
  unfold buildStep
  dsimp only
  split
  · exact Or.inl rfl
  · split
    · exact Or.inl rfl
    · right
      rename_i hne hnone
      refine ⟨⟨trimStr item, lowerStr (trimStr item), _, trimStr item |>.any (fun c => c == '.')⟩,
        rfl, rfl, hne, rfl, ?_⟩
      simpa using hnone

theorem alookup_none_not_mem_keys {α : Type} {m : List (Str × α)} {k : Str}
    (h : alookup m k = none) : k ∉ m.map (fun p => p.1) := by
  induction m with
  | nil => simp
  | cons p rest ih =>
    unfold alookup at h
    by_cases hk : p.1 = k
    · rw [if_pos hk] at h; exact absurd h (by simp)
    · rw [if_neg hk] at h
      simp only [List.map_cons, List.mem_cons]
      rintro (hh | hh)
      · exact hk hh.symm
      · exact ih h hh

theorem alookup_cons {α : Type} (p : Str × α) (rest : List (Str × α)) (b : Str) :
    alookup (p :: rest) b = if p.1 = b then some p.2 else alookup rest b := by
  cases p
  rfl

theorem alookup_insertByBase (m : List (Str × List NormalizedItem)) (b0 b : Str)
    (x : NormalizedItem) :
    alookup (insertByBase m b0 x) b =
      if b0 = b then some (((alookup m b).getD []) ++ [x]) else alookup m b := by
  induction m with
  | nil =>
    by_cases hb : b0 = b <;> simp [insertByBase, alookup, alookup_cons, hb]
  | cons p rest ih =>
    unfold insertByBase
    by_cases hp : p.1 = b0
    · rw [if_pos hp]
      by_cases hb : p.1 = b
      · have hbb : b0 = b := by rw [← hp, hb]
        simp [alookup_cons, hb, hbb]
      · have hbb : b0 ≠ b := fun h => hb (hp.trans h)
        simp [alookup_cons, hb, hbb]
    · rw [if_neg hp]
      by_cases hb : p.1 = b
      · have hbb : b0 ≠ b := fun h => hp (by rw [h, ← hb])
        simp [alookup_cons, hb, hbb]
      · simp [alookup_cons, hb, ih]

theorem alookup_foldl_group (es : List NormalizedItem) :
    ∀ (m : List (Str × List NormalizedItem)) (b : Str),
      alookup (es.foldl (fun m e => insertByBase m e.base e) m) b =
        match alookup m b with
        | none =>
          if es.filter (fun e => decide (e.base = b)) = [] then none
          else some (es.filter (fun e => decide (e.base = b)))
        | some l => some (l ++ es.filter (fun e => decide (e.base = b))) := by
  induction es with
  | nil =>
    intro m b
    cases h : alookup m b <;> simp [h]
  | cons e rest ih =>
    intro m b
    rw [List.foldl_cons]
    rw [ih (insertByBase m e.base e) b]
    rw [alookup_insertByBase]
    by_cases hb : e.base = b
    · rw [if_pos hb]
      cases h : alookup m b <;> simp [List.filter_cons, hb, h]
    · rw [if_neg hb]
      cases h : alookup m b <;> simp [List.filter_cons, hb, h]

theorem alookup_groupByBase (es : List NormalizedItem) (b : Str) :
    alookup (groupByBase es) b =
      if es.filter (fun e => decide (e.base = b)) = [] then none
      else some (es.filter (fun e => decide (e.base = b))) := by
  unfold groupByBase
  rw [alookup_foldl_group es [] b]
  rfl

def EntryInv (st : BuildState) : Prop :=
  ∀ p ∈ st.entries, p.1 = p.2.key ∧ p.2.key = lowerStr p.2.original ∧
    p.2.original = trimStr p.2.original ∧ p.2.original ≠ []

theorem buildStep_entryinv (st : BuildState) (item : Str) (h : EntryInv st) :
    EntryInv (buildStep st item) := by
  rcases buildStep_cases2 st item with heq | ⟨e, heq, horig, hne, hkey, _⟩ <;> rw [heq]
  · exact h
  · intro p hp
    rcases List.mem_append.1 hp with hold | hnew
    · exact h p hold
    · have hpe : p = (e.key, e) := by simpa using hnew
      subst hpe
      refine ⟨rfl, hkey, ?_, hne⟩
      rw [horig]
      exact (trimStr_idem item).symm
  
theorem buildStep_nodupkeys (st : BuildState) (item : Str)
    (h : (st.entries.map (fun p => p.1)).Nodup) :
    ((buildStep st item).entries.map (fun p => p.1)).Nodup := by
  rcases buildStep_cases2 st item with heq | ⟨e, heq, _, _, _, hnone⟩ <;> rw [heq]
  · exact h
  · dsimp only
    rw [List.map_append]
    apply List.Nodup.append h (by simp)
    intro a ha hb
    have : a = e.key := by simpa using hb
    subst this
    exact alookup_none_not_mem_keys hnone ha

theorem foldl_entryinv (items : List Str) :
    ∀ st : BuildState, EntryInv st → EntryInv (items.foldl buildStep st) := by
  induction items with
  | nil => intro st h; exact h
  | cons i rest ih => intro st h; exact ih _ (buildStep_entryinv st i h)

theorem foldl_nodupkeys (items : List Str) :
    ∀ st : BuildState, (st.entries.map (fun p => p.1)).Nodup →
      ((items.foldl buildStep st).entries.map (fun p => p.1)).Nodup := by
  induction items with
  | nil => intro st h; exact h
  | cons i rest ih => intro st h; exact ih _ (buildStep_nodupkeys st i h)

/-- C9: every index built by `buildItemIndex` satisfies: each surviving
entry's key is `lowercase(trim(original))` and non-empty; no two surviving
entries share a key; and `byBase` is exactly the grouping of the surviving
entries by their base (rebuilt after the bare-entry deletion pass, so a
base maps to precisely the surviving entries carrying it). -/
theorem itemIndex_invariants (items : List Str) :
    (∀ e ∈ (buildItemIndex items).items,
        e.key = lowerStr (trimStr e.original) ∧ e.key ≠ []) ∧
    (((buildItemIndex items).items.map (fun e => e.key)).Nodup) ∧
    (buildItemIndex items).byBase = groupByBase ((buildItemIndex items).items) ∧
    (∀ b : Str, alookup ((buildItemIndex items).byBase) b =
      (if ((buildItemIndex items).items.filter (fun e => decide (e.base = b))) = [] then none
       else some ((buildItemIndex items).items.filter (fun e => decide (e.base = b))))) := by
  have hinv : EntryInv (items.foldl buildStep ⟨[], [], []⟩) :=
    foldl_entryinv items ⟨[], [], []⟩ (by intro p hp; simp at hp)
  have hnodup : (((items.foldl buildStep ⟨[], [], []⟩).entries.map (fun p => p.1))).Nodup :=
    foldl_nodupkeys items ⟨[], [], []⟩ (by simp)
  refine ⟨?_, ?_, rfl, ?_⟩
  · intro e he
    unfold buildItemIndex ItemIndex.items at he
    dsimp only at he
    rcases List.mem_map.1 he with ⟨p, hp, hpe⟩
    have hmem := List.mem_of_mem_filter hp
    rcases hinv p hmem with ⟨_, hk, ho, hne⟩
    rw [hpe] at hk ho hne
    refine ⟨by rw [← ho, hk], ?_⟩
    rw [hk]
    intro hcon
    apply hne
    unfold lowerStr at hcon
    simpa using hcon
  · unfold buildItemIndex ItemIndex.items
    dsimp only
    rw [List.map_map]
    have hsub : ((items.foldl buildStep ⟨[], [], []⟩).entries.filter
        (fun p => p.2.hasDot || !(decide (p.2.base ∈ (items.foldl buildStep ⟨[], [], []⟩).qualifiedBases)))).Sublist
        (items.foldl buildStep ⟨[], [], []⟩).entries := List.filter_sublist _
    have hsubmap := hsub.map (fun p => p.1)
    have hnodup2 := hnodup.sublist hsubmap
    have : ((items.foldl buildStep ⟨[], [], []⟩).entries.filter
        (fun p => p.2.hasDot || !(decide (p.2.base ∈ (items.foldl buildStep ⟨[], [], []⟩).qualifiedBases)))).map
          ((fun e => e.key) ∘ (fun p => p.2)) =
        ((items.foldl buildStep ⟨[], [], []⟩).entries.filter
        (fun p => p.2.hasDot || !(decide (p.2.base ∈ (items.foldl buildStep ⟨[], [], []⟩).qualifiedBases)))).map
          (fun p => p.1) := by
      apply List.map_congr_left
      intro p hp
      exact (hinv p (List.mem_of_mem_filter hp)).1.symm
    rw [this]
    exact hnodup2
  · intro b
    unfold buildItemIndex ItemIndex.items
    dsimp only
    exact alookup_groupByBase _ b

/-- Witness for C9: the invariants applied to the index built from
`["Foo"]` at its single surviving entry. -/
theorem itemIndex_invariants_witness :
    (⟨"Foo".toList, "foo".toList, "foo".toList, false⟩ : NormalizedItem).key =
      lowerStr (trimStr (⟨"Foo".toList, "foo".toList, "foo".toList, false⟩ : NormalizedItem).original) ∧
    (⟨"Foo".toList, "foo".toList, "foo".toList, false⟩ : NormalizedItem).key ≠ [] :=
  (itemIndex_invariants ["Foo".toList]).1
    ⟨"Foo".toList, "foo".toList, "foo".toList, false⟩ (by decide)

/-! ### Configuration content extractor (terraform.go) -/

/-- A top-level block of a parsed configuration file. -/
structure TfBlock where
  blockType : Str
  labels : List Str
deriving DecidableEq, Repr

/-- What `os.ReadFile` + `hclparse` see for the requested path: absent,
unreadable, unparsable, or parsed into its top-level blocks. -/
inductive TfFile where
  | missing
  | readFailure (msg : Str)
  | parseFailure (msg : Str)
  | parsed (blocks : List TfBlock)
deriving DecidableEq, Repr

/-- `TerraformContent.ExtractItems` (terraform.go): `os.IsNotExist` yields
`([], nil)`; other read errors and HCL parse errors are returned as errors;
otherwise the loop collects `strings.TrimSpace(block.Labels[0])` for every
block of the requested type that has at least one label. -/
def ExtractItems (file : TfFile) (blockType : Str) : Except Str (List Str) :=
  match file with
  | .missing => .ok []
  | .readFailure msg => .error (("error reading file: ").toList ++ msg)
  | .parseFailure msg => .error (("error parsing HCL: ").toList ++ msg)
  | .parsed blocks =>
    .ok ((blocks.filter (fun b => decide (b.blockType = blockType))).foldl
      (fun items b =>
        match b.labels with
        | [] => items
        | l0 :: _ => items ++ [trimStr l0]) [])

/-- The claim's wording of the success case: the first label of every
top-level block whose type equals the requested block kind. -/
def firstLabelsOfKind (blockType : Str) (blocks : List TfBlock) : List Str :=
  (blocks.filter (fun b => decide (b.blockType = blockType))).filterMap
    (fun b => b.labels.head?.map trimStr)

theorem foldl_labels (bs : List TfBlock) :
    ∀ acc : List Str,
      bs.foldl (fun items b =>
        match b.labels with
        | [] => items
        | l0 :: _ => items ++ [trimStr l0]) acc =
      acc ++ bs.filterMap (fun b => b.labels.head?.map trimStr) := by
  induction bs with
  | nil => intro acc; simp
  | cons b rest ih =>
    intro acc
    rw [List.foldl_cons, List.filterMap_cons]
    cases hb : b.labels with
    | nil => rw [hb] at *; simp [ih]
    | cons l0 ls => rw [hb] at *; simp [ih, List.append_assoc]

/-- C7: `ExtractItems` returns an empty list and no error for a missing
file, an error for a file that fails to parse, and otherwise the first
label of every top-level block whose type equals the requested kind. -/
theorem extractItems_spec (bt m : Str) (bs : List TfBlock) :
    ExtractItems TfFile.missing bt = .ok [] ∧
    (∃ e, ExtractItems (TfFile.parseFailure m) bt = .error e) ∧
    ExtractItems (TfFile.parsed bs) bt = .ok (firstLabelsOfKind bt bs) := by
  refine ⟨rfl, ⟨_, rfl⟩, ?_⟩
  show Except.ok _ = _
  rw [foldl_labels]
  simp [firstLabelsOfKind]


/-! ### Item validators and the orchestrator (items.go, validator.go) -/

/-- An error returned by `ItemValidator.Validate`: either the extraction
error passed through, or a reconciler error. -/
inductive ValidationError where
  | extraction (msg : Str)
  | compare (e : CompareError)
deriving DecidableEq, Repr

/-- `ItemValidator` (items.go), with the markdown and terraform
collaborators abstracted to the queries `Validate` makes of them:
`markdown.HasSection`, `markdown.ExtractSectionItems`, and the state of the
Terraform file it reads. -/
structure ItemValidator where
  itemType : Str
  blockType : Str
  sections : List Str
  hasSection : Str → Bool
  extractSectionItems : Str → List Str
  tfFile : TfFile

/-- `ItemValidator.Validate` (items.go): skip when none of the sections
exists, surface an extraction error as a single-element list, otherwise
reconcile the two item lists. -/
def ItemValidator.validate (iv : ItemValidator) : List ValidationError :=
  if !(iv.sections.any iv.hasSection) then []
  else
    match ExtractItems iv.tfFile iv.blockType with
    | .error e => [ValidationError.extraction e]
    | .ok tfItems =>
      (compareTerraformAndMarkdown tfItems
        (iv.sections.foldl (fun acc s => acc ++ iv.extractSectionItems s) [])
        iv.itemType).map ValidationError.compare

/-- The amended C2 claim, stated from its words: the validator skips
(returns no errors without extracting anything) exactly when none of its
markdown sections exists, regardless of the configuration side; whenever at
least one relevant section exists, validation runs and reports extraction
errors or reconciler mismatches. -/
def itemValidatorAmendedSpec (iv : ItemValidator) : List ValidationError :=
  if iv.sections.any iv.hasSection then
    match ExtractItems iv.tfFile iv.blockType with
    | .error e => [ValidationError.extraction e]
    | .ok tfItems =>
      (compareTerraformAndMarkdown tfItems
        (iv.sections.foldl (fun acc s => acc ++ iv.extractSectionItems s) [])
        iv.itemType).map ValidationError.compare
  else []

/-- C2 (amended): the item validators skip exactly when none of the
relevant markdown sections exists; when one exists, validation runs. -/
theorem itemValidator_skip_amended (iv : ItemValidator) :
    iv.validate = itemValidatorAmendedSpec iv := by
  unfold ItemValidator.validate itemValidatorAmendedSpec
  cases h : iv.sections.any iv.hasSection <;> simp [h]

/-- A validator whose configuration declares one variable while the
markdown has no relevant section at all. -/
def undocumentedVarValidator : ItemValidator :=
  { itemType := "Variables".toList
    blockType := "variable".toList
    sections := ["Required Inputs".toList, "Optional Inputs".toList]
    hasSection := fun _ => false
    extractSectionItems := fun _ => []
    tfFile := TfFile.parsed [⟨"variable".toList, ["my_var".toList]⟩] }

/-- Counterexample to C2 as stated: the configuration declares a variable
(`ExtractItems` returns one item), no relevant markdown section exists, yet
`Validate` returns no errors — it does not run and report the mismatch the
claim promises (the reconciler would have reported one). -/
theorem itemValidator_skip_counterexample :
    undocumentedVarValidator.validate = [] ∧
    ExtractItems undocumentedVarValidator.tfFile undocumentedVarValidator.blockType =
      .ok ["my_var".toList] ∧
    undocumentedVarValidator.sections.any undocumentedVarValidator.hasSection = false ∧
    compareTerraformAndMarkdown ["my_var".toList] [] ("Variables".toList) ≠ [] := by
  refine ⟨rfl, rfl, rfl, by decide⟩

/-- `ReadmeValidator.Validate` (validator.go): run every validator and
append its error list; an element of `results` is one validator's output. -/
def runValidators {α : Type} (results : List (List α)) : List α :=
  results.foldl (fun acc es => acc ++ es) []

theorem foldl_append_acc {α : Type} (l : List (List α)) :
    ∀ acc : List α, l.foldl (fun a es => a ++ es) acc = acc ++ runValidators l := by
  induction l with
  | nil => intro acc; simp [runValidators]
  | cons x rest ih =>
    intro acc
    rw [List.foldl_cons]
    rw [ih (acc ++ x)]
    rw [show runValidators (x :: rest) = x ++ runValidators rest from by
      unfold runValidators
      rw [List.foldl_cons]
      rw [ih ([] ++ x)]
      simp [runValidators]]
    simp

theorem runValidators_append {α : Type} (xs ys : List (List α)) :
    runValidators (xs ++ ys) = runValidators xs ++ runValidators ys := by
  unfold runValidators
  rw [List.foldl_append]
  rw [foldl_append_acc]
  rfl

/-- C8: an extraction failure makes that one validator return exactly its
single error and skip its remaining checks, while the top-level run still
contains every other validator's errors, concatenated in order. -/
theorem validator_failure_isolated (pre post : List (List ValidationError)) (iv : ItemValidator) (e : Str)
    (hsec : iv.sections.any iv.hasSection = true)
    (herr : ExtractItems iv.tfFile iv.blockType = .error e) :
    iv.validate = [ValidationError.extraction e] ∧
    runValidators (pre ++ iv.validate :: post) =
      runValidators pre ++ [ValidationError.extraction e] ++ runValidators post := by
  have hv : iv.validate = [ValidationError.extraction e] := by
    unfold ItemValidator.validate
    rw [hsec, herr]
    rfl
  refine ⟨hv, ?_⟩
  rw [hv]
  rw [show (pre ++ [ValidationError.extraction e] :: post) =
    pre ++ [[ValidationError.extraction e]] ++ post from by simp]
  rw [runValidators_append, runValidators_append]
  rfl


/-- A validator whose Terraform file fails to parse while its section exists. -/
def failingVarValidator : ItemValidator :=
  { itemType := "Variables".toList
    blockType := "variable".toList
    sections := ["Outputs".toList]
    hasSection := fun _ => true
    extractSectionItems := fun _ => []
    tfFile := TfFile.parseFailure "boom".toList }

/-- Witness for C8: the theorem applied to a failing validator between two
healthy ones. -/
theorem validator_failure_isolated_witness :
    runValidators ([[ValidationError.extraction "a".toList]] ++
        failingVarValidator.validate :: [[]]) =
      runValidators [[ValidationError.extraction "a".toList]] ++
        [ValidationError.extraction (("error parsing HCL: ").toList ++ "boom".toList)] ++
        runValidators [([] : List ValidationError)] :=
  (validator_failure_isolated [[ValidationError.extraction "a".toList]] [[]]
    failingVarValidator (("error parsing HCL: ").toList ++ "boom".toList) rfl rfl).2

/-! ### Fuzzy section matcher (part_016: matchesSectionName, levenshtein) -/

/-- `strings.EqualFold` (ASCII case folding). -/
def eqFold (a b : Str) : Bool := decide (lowerStr a = lowerStr b)

/-- Inner loop of `levenshtein`: given the previous row `v0` and the
running value `v1j` (`v1[j]`), produce the rest of the current row. -/
def levNextRow (c : Char) : Str → List Nat → Nat → List Nat
  | [], _, _ => []
  | d :: ds, v0, v1j =>
    match v0 with
    | [] => []
    | v0j :: v0rest =>
      let v0j1 := match v0rest with
        | [] => 0
        | x :: _ => x
      let cost := if c = d then 0 else 1
      let nxt := Nat.min (Nat.min (v1j + 1) (v0j1 + 1)) (v0j + cost)
      nxt :: levNextRow c ds v0rest nxt

/-- Outer loop of `levenshtein`: one row per character of `s1`. -/
def levRows (s2 : Str) : Str → List Nat → Nat → List Nat
  | [], v0, _ => v0
  | c :: cs, v0, i => levRows s2 cs ((i + 1) :: levNextRow c s2 v0 (i + 1)) (i + 1)

/-- `levenshtein` (part_016): classic two-row dynamic programming with
insert/delete/substitute cost 1; the answer is the last cell of the final
row. -/
def levenshtein (s1 s2 : Str) : Nat :=
  if s1 = [] then s2.length
  else if s2 = [] then s1.length
  else ((levRows s2 s1 (List.range (s2.length + 1)) 0).getLast?).getD 0

/-- `isSimilarSection` (part_000): exact, pluralization, edit distance at
most 2, or case-insensitive equality. -/
def isSimilarSection (found expected : Str) : Bool :=
  if found = expected then true
  else if found ++ ['s'] = expected || found = expected ++ ['s'] then true
  else if levenshtein found expected ≤ 2 then true
  else if eqFold found expected && decide (found ≠ expected) then true
  else false

/-- `matchesSectionName` (part_016): trim both and refuse empties, then
case-insensitive equality, pluralization on either side, the
"Inputs"/"Required Inputs"/"Optional Inputs" special case, and finally the
similarity fallback. -/
def matchesSectionName (actual expected : Str) : Bool :=
  let a := trimStr actual
  let e := trimStr expected
  if a = [] || e = [] then false
  else if eqFold a e then true
  else if eqFold a (e ++ ['s']) || eqFold (a ++ ['s']) e then true
  else if e = ("Inputs").toList &&
      (eqFold a (("Required Inputs").toList) || eqFold a (("Optional Inputs").toList)) then true
  else isSimilarSection a e



/-- C4: `Matches("Resourses", "Resources")` is true (edit distance 1),
`Matches("Resource", "Resources")` is true (pluralization),
`Matches("Inputs", "Resources")` is false, and the matcher returns false
whenever either argument trims to the empty string. -/
theorem fuzzy_matcher_boundary :
    matchesSectionName ("Resourses").toList ("Resources").toList = true ∧
    matchesSectionName ("Resource").toList ("Resources").toList = true ∧
    matchesSectionName ("Inputs").toList ("Resources").toList = false ∧
    (∀ a e : Str, trimStr a = [] ∨ trimStr e = [] → matchesSectionName a e = false) := by
  refine ⟨by decide, by decide, by decide, ?_⟩
  intro a e h
  rcases h with h | h <;> simp [matchesSectionName, h]

/-- Witness for C4: the empty-trim clause applied to a whitespace-only
observed heading. -/
theorem fuzzy_matcher_boundary_witness :
    matchesSectionName ("   ").toList ("Resources").toList = false :=
  fuzzy_matcher_boundary.2.2.2 ("   ").toList ("Resources").toList (Or.inl (by decide))


/-! ### Table column validation (part_016: MarkdownContent.validateColumns) -/

/-- The error shapes emitted by `validateColumns`, with the `fmt.Errorf`
arguments as fields. -/
inductive ColumnError where
  | wrongCase (sectionName col should : Str)
  | didYouMean (sectionName col meant : Str)
  | unexpected (sectionName col : Str)
  | missingRequired (sectionName col : Str)
deriving DecidableEq, Repr

/-- Loop state of `validateColumns`' first pass over the actual columns. -/
structure ColState where
  errs : List ColumnError
  foundExact : List Str
  foundClose : List Str
deriving DecidableEq, Repr

/-- `isSimilarColumn` (part_016): pluralization or edit distance at most 2. -/
def isSimilarColumn (a b : Str) : Bool :=
  (a ++ ['s'] = b) || (a = b ++ ['s']) || levenshtein a b ≤ 2

/-- First close match for `al` in a lowercase→original column map. -/
def findSimilar (al : Str) : List (Str × Str) → Option (Str × Str)
  | [] => none
  | (l, o) :: rest => if isSimilarColumn al l then some (l, o) else findSimilar al rest

/-- One iteration of `validateColumns`' first pass: exact required match
(recording capitalization errors), exact optional match, close required
match ("did you mean"), close optional match, or unexpected column. -/
def colStep (sectionName : Str) (requiredLower optionalLower : List (Str × Str))
    (st : ColState) (col : Str) : ColState :=
  let al := lowerStr col
  match alookup requiredLower al with
  | some orig =>
    { st with
      foundExact := st.foundExact ++ [al]
      errs := if col = orig then st.errs else st.errs ++ [ColumnError.wrongCase sectionName col orig] }
  | none =>
    match alookup optionalLower al with
    | some orig =>
      { st with
        errs := if col = orig then st.errs else st.errs ++ [ColumnError.wrongCase sectionName col orig] }
    | none =>
      match findSimilar al requiredLower with
      | some (rl, ro) =>
        { st with
          errs := st.errs ++ [ColumnError.didYouMean sectionName col ro]
          foundClose := st.foundClose ++ [rl] }
      | none =>
        match findSimilar al optionalLower with
        | some (_, oo) => { st with errs := st.errs ++ [ColumnError.didYouMean sectionName col oo] }
        | none => { st with errs := st.errs ++ [ColumnError.unexpected sectionName col] }

/-- `MarkdownContent.validateColumns` (part_016): walk the actual columns,
then report every required column found neither exactly nor as a close
match. -/
def validateColumns (sectionName : Str) (required optionalCols actual : List Str) :
    List ColumnError :=
  let requiredLower := required.map (fun c => (lowerStr c, c))
  let optionalLower := optionalCols.map (fun c => (lowerStr c, c))
  let st := actual.foldl (colStep sectionName requiredLower optionalLower) ⟨[], [], []⟩
  st.errs ++ requiredLower.filterMap (fun p =>
    if p.1 ∈ st.foundExact ∨ p.1 ∈ st.foundClose then none
    else some (ColumnError.missingRequired sectionName p.2))

/-- C6: a "Providers" table with columns `["Name", "Ver"]` instead of
`["Name", "Version"]` yields exactly an "unexpected column 'Ver'" error
and the "missing required column 'Version'" error (no did-you-mean hint:
the edit distance between "ver" and "version" is 4). -/
theorem providers_table_missing_version :
    validateColumns ("Providers").toList [("Name").toList, ("Version").toList] []
        [("Name").toList, ("Ver").toList] =
      [ColumnError.unexpected ("Providers").toList ("Ver").toList,
       ColumnError.missingRequired ("Providers").toList ("Version").toList] ∧
    ColumnError.missingRequired ("Providers").toList ("Version").toList ∈
      validateColumns ("Providers").toList [("Name").toList, ("Version").toList] []
        [("Name").toList, ("Ver").toList] := by
  exact ⟨by decide, by decide⟩


/-! ### Markdown resource extraction (part_016) -/

/-- The nodes of the parsed markdown tree that resource extraction
observes, in document order: headings (level and extracted text) and links
(visible text and destination). -/
inductive MdNode where
  | heading (level : Nat) (text : Str)
  | link (text : Str) (dest : Str)
deriving DecidableEq, Repr

/-- `MarkdownContent.hasProviderPrefix` (part_016): false when the
configured prefix list is empty, otherwise any case-insensitive prefix
match. -/
def hasProviderPrefix (prefixes : List Str) (s : Str) : Bool :=
  let sl := lowerStr s
  if prefixes.isEmpty then false
  else prefixes.any (fun p => (lowerStr p).isPrefixOf sl)

/-- `strings.Split(s, c)[0]`: everything before the first `c`. -/
def beforeChar (c : Char) (s : Str) : Str := s.takeWhile (fun x => x != c)

/-- `strings.TrimPrefix(s, "[")`. -/
def dropLeadingBracket : Str → Str
  | '[' :: r => r
  | s => s

/-- `addUnique` (part_016): append unless already present. -/
def addUnique (l : List Str) (x : Str) : List Str := if x ∈ l then l else l ++ [x]

/-- `strings.Contains(hay, sub)` (second argument is the haystack). -/
def strContains (sub : Str) : Str → Bool
  | [] => sub.isEmpty
  | c :: t => sub.isPrefixOf (c :: t) || strContains sub t

/-- `MarkdownContent.appendResourceFromLink` (part_016): keep
provider-prefixed link texts; `/data-sources/` in the destination routes to
the data-source list; both the full name and its base are added uniquely. -/
def appendResourceFromLink (prefixes : List Str) (acc : List Str × List Str)
    (lnk : Str × Str) : List Str × List Str :=
  if !(hasProviderPrefix prefixes lnk.1) then acc
  else
    let resourceName := dropLeadingBracket (beforeChar ']' lnk.1)
    let baseName := beforeChar '.' resourceName
    if strContains (("/data-sources/").toList) lnk.2 then
      (acc.1, addUnique (addUnique acc.2 resourceName) baseName)
    else
      (addUnique (addUnique acc.1 resourceName) baseName, acc.2)

/-- All links of a node list, in order. -/
def linksIn (nodes : List MdNode) : List (Str × Str) :=
  nodes.filterMap (fun n =>
    match n with
    | MdNode.link t d => some (t, d)
    | _ => none)

/-- Folding `appendResourceFromLink` over a link list. -/
def collectLinkResources (prefixes : List Str) (links : List (Str × Str)) :
    List Str × List Str :=
  links.foldl (appendResourceFromLink prefixes) ([], [])

/-- The sibling nodes following a heading, up to the next heading of level
at most `level` (the bound of `resourcesUnderHeading`). -/
def takeSection (level : Nat) : List MdNode → List MdNode
  | [] => []
  | MdNode.heading l t :: rest =>
    if l ≤ level then [] else MdNode.heading l t :: takeSection level rest
  | MdNode.link t d :: rest => MdNode.link t d :: takeSection level rest

/-- `collectSectionHeadings(["Resources"])` (part_016), each matched
level-2 heading paired with its section tail: the headings whose trimmed
text fuzzy-matches "Resources". -/
def resourcesHeadingTails : List MdNode → List (List MdNode)
  | [] => []
  | MdNode.heading l t :: rest =>
    if l = 2 && matchesSectionName (trimStr t) (("Resources").toList) then
      takeSection 2 rest :: resourcesHeadingTails rest
    else resourcesHeadingTails rest
  | MdNode.link _ _ :: rest => resourcesHeadingTails rest

/-- `MarkdownContent.resourcesWithoutHeading` (part_016): scan every link
of the whole document. -/
def resourcesWithoutHeading (prefixes : List Str) (doc : List MdNode) :
    List Str × List Str :=
  collectLinkResources prefixes (linksIn doc)

/-- The collection phase of `extractDocumentResourcesAndDataSources`
(part_016): links under matched "Resources" headings, or — when no heading
fuzzy-matches — every provider-prefixed link of the whole document. -/
def collectDocResources (prefixes : List Str) (doc : List MdNode) :
    List Str × List Str :=
  let tails := resourcesHeadingTails doc
  if tails.isEmpty then resourcesWithoutHeading prefixes doc
  else
    tails.foldl (fun acc tail =>
      let rd := collectLinkResources prefixes (linksIn tail)
      (acc.1 ++ rd.1, acc.2 ++ rd.2)) ([], [])

/-- The error of `extractDocumentResourcesAndDataSources`. -/
def resourcesErrMsg : Str := ("resources section not found or empty").toList

/-- `MarkdownContent.ExtractResourcesAndDataSources` (part_016): collect,
then error exactly when both result lists are empty. -/
def ExtractResourcesAndDataSources (prefixes : List Str) (doc : List MdNode) :
    Except Str (List Str × List Str) :=
  let rd := collectDocResources prefixes doc
  if rd.1.isEmpty && rd.2.isEmpty then Except.error resourcesErrMsg else Except.ok rd

/-- C5: `ExtractResourcesAndDataSources` errors exactly when both result
lists are empty, and when no heading fuzzy-matches "Resources" it decides
on the full-document scan rather than failing immediately. -/
theorem extractResources_error_iff (prefixes : List Str) (doc : List MdNode) :
    ((∃ e, ExtractResourcesAndDataSources prefixes doc = .error e) ↔
      collectDocResources prefixes doc = ([], [])) ∧
    (∀ r d, ExtractResourcesAndDataSources prefixes doc = .ok (r, d) →
      (r ≠ [] ∨ d ≠ []) ∧ (r, d) = collectDocResources prefixes doc) ∧
    (resourcesHeadingTails doc = [] →
      collectDocResources prefixes doc = resourcesWithoutHeading prefixes doc) := by
  refine ⟨⟨?_, ?_⟩, ?_, ?_⟩
  · rintro ⟨e, he⟩
    unfold ExtractResourcesAndDataSources at he
    dsimp only at he
    by_cases h : ((collectDocResources prefixes doc).1.isEmpty &&
        (collectDocResources prefixes doc).2.isEmpty) = true
    · have h1 : (collectDocResources prefixes doc).1.isEmpty = true ∧
          (collectDocResources prefixes doc).2.isEmpty = true := by simpa using h
      exact Prod.ext (List.isEmpty_iff.1 h1.1) (List.isEmpty_iff.1 h1.2)
    · rw [if_neg h] at he
      exact absurd he (by simp)
  · intro h
    refine ⟨resourcesErrMsg, ?_⟩
    unfold ExtractResourcesAndDataSources
    dsimp only
    rw [h]
    rfl
  · intro r d h
    unfold ExtractResourcesAndDataSources at h
    dsimp only at h
    by_cases hb : ((collectDocResources prefixes doc).1.isEmpty &&
        (collectDocResources prefixes doc).2.isEmpty) = true
    · rw [if_pos hb] at h
      exact absurd h (by simp)
    · rw [if_neg hb] at h
      have hok : collectDocResources prefixes doc = (r, d) := by
        simpa using h
      constructor
      · by_contra hcon
        push_neg at hcon
        apply hb
        rw [hok, hcon.1, hcon.2]
        rfl
      · rw [hok]
  · intro h
    unfold collectDocResources
    rw [h]
    rfl


theorem appendResourceFromLink_nil (acc : List Str × List Str) (lnk : Str × Str) :
    appendResourceFromLink [] acc lnk = acc := rfl

theorem collectLinkResources_nil (links : List (Str × Str)) :
    collectLinkResources [] links = ([], []) := by
  unfold collectLinkResources
  induction links with
  | nil => rfl
  | cons l rest ih =>
    rw [List.foldl_cons, appendResourceFromLink_nil]
    exact ih

/-- C10: with an empty provider-prefix list, no link is ever collected and
`ExtractResourcesAndDataSources` returns the "resources section not found
or empty" error on every document. -/
theorem emptyPrefixes_always_error (doc : List MdNode) :
    ExtractResourcesAndDataSources [] doc = .error resourcesErrMsg := by
  have h1 : collectDocResources [] doc = ([], []) := by
    unfold collectDocResources
    dsimp only
    by_cases h : (resourcesHeadingTails doc).isEmpty = true
    · rw [if_pos h]
      unfold resourcesWithoutHeading
      exact collectLinkResources_nil _
    · rw [if_neg h]
      generalize resourcesHeadingTails doc = tails
      induction tails with
      | nil => rfl
      | cons t rest ih =>
        rw [List.foldl_cons, collectLinkResources_nil]
        simpa using ih
  unfold ExtractResourcesAndDataSources
  rw [h1]
  rfl


/-- A document with no "Resources" heading but one provider-prefixed link. -/
def sampleResourceDoc : List MdNode :=
  [MdNode.link ("azurerm_thing.main").toList
    ("https://registry.example/providers/azurerm/resources/thing").toList]

/-- Witness for C5: the success clause and the fallback clause applied to a
concrete document that has provider-prefixed links but no "Resources"
heading. -/
theorem extractResources_error_iff_witness :
    ((["azurerm_thing.main".toList, "azurerm_thing".toList] ≠ ([] : List Str) ∨
        ([] : List Str) ≠ ([] : List Str)) ∧
      ((["azurerm_thing.main".toList, "azurerm_thing".toList], ([] : List Str)) =
        collectDocResources [("azurerm_").toList] sampleResourceDoc)) ∧
    collectDocResources [("azurerm_").toList] sampleResourceDoc =
      resourcesWithoutHeading [("azurerm_").toList] sampleResourceDoc :=
  ⟨(extractResources_error_iff [("azurerm_").toList] sampleResourceDoc).2.1
      ["azurerm_thing.main".toList, "azurerm_thing".toList] [] rfl,
    (extractResources_error_iff [("azurerm_").toList] sampleResourceDoc).2.2 rfl⟩

end Markparsr
